import Mathlib

/-!
Verification of the topic/time-slot allocation logic of `src/main.py`
(a chat bot that assigns named topics and numbered presentation slots,
1 through 7, to users, storing the allocation table as JSON).

The development shallowly embeds the handlers of `main.py`:

* the typed allocation table (`Table`, `Topic`, `TimeSlot`) mirrors the
  decoded JSON dictionaries the handlers manipulate;
* `claimTopic` embeds the common success/conflict logic of the handlers
  `choose_topic` (lines 186-219) and `confirm_rechoose_topic`
  (lines 298-331), whose table mutations are textually identical;
* `claimSlot` embeds the slot-claiming logic shared by `choose_time`
  (lines 241-262) and `confirm_rechoose_time` (lines 393-414);
* `choose_time` embeds the full `choose_time` handler including the
  back-branch compensation (lines 229-239) and the conversation-state
  (`pending`) effect;
* `reset_topic` and `got_name_reset` embed the two release flows
  (lines 440-455 and 457-474);
* `replaceTopicCatalog` embeds the catalog replacement of
  `admin_save_manual` (lines 494-500);
* a small JSON value model (`Json`, `FileState`, `load_data`, `save_data`)
  embeds the persistence layer (lines 50-70), including the Python
  exceptions that can escape `load_data` (modelled as `Except PyErr`).

Python string operations used by the handlers (`str.strip`, `in` for
substring tests, `int(...)`, `str.replace`) are re-implemented on
character lists (`pyStrip`, `strIn`, `pyInt`, `pyReplace`) so that every
definition is executable and kernel-reducible.
-/

/-- Python `str.isspace` characters relevant to `str.strip()` (ASCII
whitespace; the handlers only ever strip ordinary text input). -/
def isSpaceChar (c : Char) : Bool :=
  c == ' ' || c == '\t' || c == '\n' || c == '\r' || c == '\x0b' || c == '\x0c'

/-- `pyStrip s` models Python `s.strip()`. -/
def pyStrip (s : String) : String :=
  ⟨((s.data.dropWhile isSpaceChar).reverse.dropWhile isSpaceChar).reverse⟩

/-- `leadsWith n h` is true when the list `n` is an initial segment of `h`. -/
def leadsWith : List Char → List Char → Bool
  | [], _ => true
  | _ :: _, [] => false
  | a :: as, b :: bs => a == b && leadsWith as bs

/-- `occursIn n h` is true when `n` occurs contiguously inside `h`
(Python `n in h` on strings; the empty needle occurs everywhere). -/
def occursIn (needle : List Char) : List Char → Bool
  | [] => leadsWith needle []
  | c :: rest => leadsWith needle (c :: rest) || occursIn needle rest

/-- Python substring test `needle in hay`. -/
def strIn (needle hay : String) : Bool :=
  occursIn needle.data hay.data

/-- Value of a decimal digit character, if it is one. -/
def digitVal (c : Char) : Option Nat :=
  if '0' ≤ c ∧ c ≤ '9' then some (c.toNat - '0'.toNat) else none

/-- Decimal value of a nonempty all-digit character list. -/
def digitsVal : List Char → Option Nat
  | [] => none
  | [c] => digitVal c
  | c :: rest =>
    match digitVal c, digitsVal rest with
    | some d, some n => some (d * 10 ^ rest.length + n)
    | _, _ => none

/-- `pyInt s` models Python `int(s)`: strip surrounding whitespace, allow
an optional sign, then require at least one decimal digit.  (Python also
accepts underscores between digits and non-ASCII digits; those inputs do
not occur in this bot's button labels and are modelled as failures.) -/
def pyInt (s : String) : Option Int :=
  match (pyStrip s).data with
  | '-' :: rest => (digitsVal rest).map (fun n => -(n : Int))
  | '+' :: rest => (digitsVal rest).map (fun n => (n : Int))
  | l => (digitsVal l).map (fun n => (n : Int))

/-- `pyReplace` core: replace every non-overlapping occurrence of
`p :: ps` in the haystack by `rep`, scanning left to right (Python
`str.replace` with a nonempty pattern). -/
def replaceCore (p : Char) (ps rep : List Char) : List Char → List Char
  | [] => []
  | c :: cs =>
    if leadsWith (p :: ps) (c :: cs) then rep ++ replaceCore p ps rep (cs.drop ps.length)
    else c :: replaceCore p ps rep cs
termination_by l => l.length
decreasing_by
  all_goals simp only [List.length_drop, List.length_cons]
  all_goals omega

/-- Python `s.replace(pat, rep)`; with an empty pattern Python interleaves
`rep` everywhere, a case the bot never exercises (its pattern is a fixed
nonempty label), modelled as the identity. -/
def pyReplace (s pat rep : String) : String :=
  match pat.data with
  | [] => s
  | p :: ps => ⟨replaceCore p ps rep.data s.data⟩

/-- A topic entry of the table: `{"id": ..., "name": ..., "user": ...}`
(`user` is Python `None` or the display name of the owner). -/
structure Topic where
  id : Int
  name : String
  user : Option String
deriving DecidableEq, Repr

/-- A time-slot entry of the table: `{"slot": ..., "user": ...}`. -/
structure TimeSlot where
  slot : Int
  user : String
deriving DecidableEq, Repr

/-- The decoded allocation table
`{"admin_ids": [...], "topics": [...], "time_slots": [...]}`. -/
structure Table where
  admin_ids : List Int
  topics : List Topic
  time_slots : List TimeSlot
deriving DecidableEq, Repr

/-- Python truthiness of the `user` field: `None` and the empty string are
falsy, every other string is truthy (`if chosen.get("user")`). -/
def truthyUser : Option String → Bool
  | none => false
  | some s => s != ""

/-- The back-button label checked literally by every handler. -/
def backLabel : String := "🔙 Назад"

/-- The clearing loop of `choose_topic` lines 209-211 (and
`confirm_rechoose_topic` lines 322-324): every topic whose `user` equals
`name` has its `user` set to `None`. -/
def clearOwnedBy (tps : List Topic) (name : String) : List Topic :=
  tps.map (fun tp => if tp.user == some name then { tp with user := none } else tp)

/-- `chosen["user"] = name` (line 213): the first topic whose `name`
equals `choice` — the one `next(...)` found — gets `user := name`. -/
def setUserFirst (tps : List Topic) (choice name : String) : List Topic :=
  match tps with
  | [] => []
  | tp :: rest =>
    if tp.name == choice then { tp with user := some name } :: rest
    else tp :: setUserFirst rest choice name

/-- Outcome of the topic-claiming logic. -/
inductive TopicOutcome where
  | back
  | notFound
  | conflict
  | claimed (topicName : String) (topicId : Int)
deriving DecidableEq, Repr

/-- The topic-claiming logic shared by `choose_topic` (lines 186-219) and
`confirm_rechoose_topic` (lines 298-331): look up the first topic named
`choice` with `next(...)`; the back label returns to the menu; a missing
topic re-prompts; a topic with a truthy `user` is a conflict; otherwise
clear every topic owned by `name`, set the chosen topic's `user` to
`name`, and persist.  The returned table is the persisted state (the
input table on the non-mutating outcomes, where `save_data` is not
called). -/
def claimTopic (t : Table) (name choice : String) : Table × TopicOutcome :=
  if choice == backLabel then (t, .back)
  else
    match t.topics.find? (fun tp => tp.name == choice) with
    | none => (t, .notFound)
    | some chosen =>
      if truthyUser chosen.user then (t, .conflict)
      else
        ({ t with topics := setUserFirst (clearOwnedBy t.topics name) choice name },
         .claimed chosen.name chosen.id)

/-- Outcome of the slot-claiming logic. -/
inductive SlotOutcome where
  | invalid
  | conflict (owner : String)
  | claimed
deriving DecidableEq, Repr

/-- The moved slot list of `choose_time` lines 259-261 (and
`confirm_rechoose_time` lines 411-413): drop every entry owned by `name`,
then append the fresh entry. -/
def movedSlots (slots : List TimeSlot) (name : String) (timeSlot : Int) : List TimeSlot :=
  slots.filter (fun e => e.user != name) ++ [⟨timeSlot, name⟩]

/-- The slot-claiming logic shared by `choose_time` (lines 241-262) and
`confirm_rechoose_time` (lines 393-414): reject slots outside 1..7; if
`next(...)` finds an entry for the requested slot with a different owner,
report a conflict without mutation (no `save_data` call, so the returned
table is the input table); otherwise remove every entry owned by `name`
and append the new entry, and persist. -/
def claimSlot (t : Table) (name : String) (timeSlot : Int) : Table × SlotOutcome :=
  if timeSlot < 1 ∨ 7 < timeSlot then (t, .invalid)
  else
    match t.time_slots.find? (fun e => e.slot == timeSlot) with
    | some e =>
      if e.user != name then (t, .conflict e.user)
      else ({ t with time_slots := movedSlots t.time_slots name timeSlot }, .claimed)
    | none => ({ t with time_slots := movedSlots t.time_slots name timeSlot }, .claimed)

/-- The back-branch loop of `choose_time` lines 231-234: clear the `user`
of the first topic matching the predicate, then `break` (so later matches
are untouched). -/
def clearFirstMatch (p : Topic → Bool) : List Topic → List Topic
  | [] => []
  | tp :: rest =>
    if p tp then { tp with user := none } :: rest
    else tp :: clearFirstMatch p rest

/-- Conversation states stored in the `pending` dictionary; `none` in the
handlers below models `pending.pop(user_id)` (the Idle state). -/
inductive PendState where
  | awaitName
  | choosing (name : String)
  | choosingTime (name : String) (topicName : String) (topicId : Int)
  | awaitNameRechoose
  | rechoosing (name : String)
  | rechoosingTime (oldSlot : Int) (user : String)
  | awaitNameRechooseTime
  | awaitNameReset
  | adminManual
deriving DecidableEq, Repr

/-- Reply category produced by the `choose_time` handler. -/
inductive TimeMsg where
  | backMenu
  | badToken
  | conflictMsg (owner : String)
  | successMsg (slot : Int)
deriving DecidableEq, Repr

/-- The full `choose_time` handler (lines 221-266) for a user whose
pending entry is `choosing_time` with context `name`, `topicName`,
`topicId`, receiving message `text`.  Returns the persisted table, the
user's new pending state (`none` = Idle), and the reply category.  The
back branch (lines 229-239) clears the first topic matching the
remembered name and id, leaves `time_slots` untouched, persists, and
pops the pending entry; unparsable or out-of-range tokens re-prompt
without state change; conflicts re-prompt without state change; a
successful claim persists the move and pops the pending entry. -/
def choose_time (t : Table) (name topicName : String) (topicId : Int) (text : String) :
    Table × Option PendState × TimeMsg :=
  let choice := pyStrip text
  if choice == backLabel then
    ({ t with topics :=
        clearFirstMatch (fun tp => tp.user == some name && tp.id == topicId) t.topics },
     none, .backMenu)
  else
    match pyInt (pyReplace choice "⏰ " "") with
    | none => (t, some (.choosingTime name topicName topicId), .badToken)
    | some n =>
      match claimSlot t name n with
      | (t2, .invalid) => (t2, some (.choosingTime name topicName topicId), .badToken)
      | (t2, .conflict owner) =>
        (t2, some (.choosingTime name topicName topicId), .conflictMsg owner)
      | (t2, .claimed) => (t2, none, .successMsg n)

/-- The topic-matching predicate of `reset_topic` line 445:
`t.get("user") and (str(id) in t["user"] or full_name in t["user"])`. -/
def callerTopicMatch (cid : Int) (fullName : String) (tp : Topic) : Bool :=
  match tp.user with
  | none => false
  | some u => u != "" && (strIn (toString cid) u || strIn fullName u)

/-- The slot-matching rule implicit in `reset_topic` line 449: an entry is
removed when its owner equals the caller's full name, contains it as a
substring, or equals the caller's stringified id (the kept entries are
the ones matching none of the three). -/
def slotCallerMatch (cid : Int) (fullName : String) (e : TimeSlot) : Bool :=
  e.user == fullName || strIn fullName e.user || e.user == toString cid

/-- The `reset_topic` handler (lines 440-455) for a caller with id `cid`
and display name `fullName`: `next(...)` finds the first topic whose
truthy owner contains the stringified id or the full name; if found, that
single topic's owner is cleared, the three-way slot filter runs, and the
table is persisted (`true`); otherwise nothing is written and the handler
falls through to asking for a name (`false`). -/
def reset_topic (t : Table) (cid : Int) (fullName : String) : Table × Bool :=
  match t.topics.find? (callerTopicMatch cid fullName) with
  | some _ =>
    ({ t with
        topics := clearFirstMatch (callerTopicMatch cid fullName) t.topics,
        time_slots := t.time_slots.filter (fun e => !(slotCallerMatch cid fullName e)) },
     true)
  | none => (t, false)

/-- The `got_name_reset` handler (lines 457-474) for typed name `name`:
if any topic's owner equals `name` exactly, clear every such topic,
remove every slot entry owned exactly by `name`, and persist (`true`);
otherwise report that nothing matched and leave the table unwritten
(`false`). -/
def got_name_reset (t : Table) (name : String) : Table × Bool :=
  let user_topics := t.topics.filter (fun tp => tp.user == some name)
  if user_topics.isEmpty then (t, false)
  else
    ({ t with
        topics := clearOwnedBy t.topics name,
        time_slots := t.time_slots.filter (fun e => e.user != name) },
     true)

/-- The catalog replacement of `admin_save_manual` lines 495-499: the new
topics are numbered from 1 in input order with no owner, and the slot
list is cleared; `admin_ids` is untouched. -/
def replaceTopicCatalog (t : Table) (newNames : List String) : Table :=
  { t with
      topics := newNames.enum.map (fun p => ⟨(p.1 : Int) + 1, p.2, none⟩),
      time_slots := [] }

/-- Line 494 of `admin_save_manual`: the non-empty stripped lines of the
admin's message (`splitlines` modelled by splitting on newline). -/
def parseCatalog (text : String) : List String :=
  ((text.splitOn "\n").map pyStrip).filter (fun l => l != "")

/-- The mutating part of the `admin_save_manual` handler (lines 494-500). -/
def admin_save_manual (t : Table) (text : String) : Table :=
  replaceTopicCatalog t (parseCatalog text)

/-- Number of topics owned (by exact string equality) by `n`. -/
def countOwned (tps : List Topic) (n : String) : Nat :=
  tps.countP (fun tp => tp.user == some n)

/-!
## Persistence model

`load_data` (lines 50-65) and `save_data` (lines 68-70) read and write the
whole table as JSON.  We model the JSON values Python's `json.load` can
produce (floats never occur in this bot's data) and the Python exceptions
that can escape the loader.
-/

/-- A JSON value as decoded by `json.load` (numbers restricted to
integers, which is all this bot ever writes). -/
inductive Json where
  | null
  | bool (b : Bool)
  | num (n : Int)
  | str (s : String)
  | arr (xs : List Json)
  | obj (fields : List (String × Json))

/-- Python exceptions that can escape `load_data`. -/
inductive PyErr where
  | attributeError
  | typeError
deriving DecidableEq, Repr

/-- The state of the persisted file as seen by `load_data`: absent, empty
(`os.path.getsize == 0`), present but not decodable as JSON
(`json.JSONDecodeError`), or decodable to a JSON value. -/
inductive FileState where
  | missing
  | empty
  | malformed
  | parsed (j : Json)

/-- Python `data.get(k, dflt)` on a decoded JSON object. -/
def objGet (fields : List (String × Json)) (k : String) (dflt : Json) : Json :=
  match fields.find? (fun kv => kv.1 == k) with
  | some kv => kv.2
  | none => dflt

/-- Python `data.get(k)` when we only care whether the key is present. -/
def objLookup (fields : List (String × Json)) (k : String) : Option Json :=
  (fields.find? (fun kv => kv.1 == k)).map (fun kv => kv.2)

/-- Python `data[k] = v` on a decoded JSON object: replace the value at
the first occurrence of the key, keeping its position, or append the key
at the end (dict insertion order). -/
def objSet : List (String × Json) → String → Json → List (String × Json)
  | [], k, v => [(k, v)]
  | kv :: rest, k, v =>
    if kv.1 == k then (k, v) :: rest else kv :: objSet rest k v

/-- Python `==` between an `int` and a decoded JSON value (`1 == True`
holds in Python; an int never equals a string, list, dict or `None`). -/
def pyIntEqJson (a : Int) : Json → Bool
  | .num b => a == b
  | .bool b => a == (if b then (1 : Int) else 0)
  | _ => false

/-- Python `a in v` for an `int` `a` and a decoded JSON value `v`:
membership by `==` in a list, key membership in a dict (an int is never
equal to a string key), and a `TypeError` on `None`, booleans, numbers
and strings. -/
def pyIntInJson (a : Int) : Json → Except PyErr Bool
  | .arr xs => .ok (xs.any (pyIntEqJson a))
  | .obj _ => .ok false
  | _ => .error .typeError

/-- One iteration of the reconciliation loop of `load_data` lines 58-61:
`if admin_id not in data.get("admin_ids", []): data["admin_ids"] =
data.get("admin_ids", []); data["admin_ids"].append(admin_id)`.  The
membership test can raise `TypeError`; `.append` on a non-list raises
`AttributeError`. -/
def reconcileStep (fields : List (String × Json)) (a : Int) :
    Except PyErr (List (String × Json)) :=
  let cur := objGet fields "admin_ids" (Json.arr [])
  match pyIntInJson a cur with
  | .error e => .error e
  | .ok true => .ok fields
  | .ok false =>
    match cur with
    | .arr xs => .ok (objSet fields "admin_ids" (Json.arr (xs ++ [Json.num a])))
    | _ => .error .attributeError

/-- The whole reconciliation loop `for admin_id in ADMIN_IDS: ...`. -/
def reconcileFields :
    List (String × Json) → List Int → Except PyErr (List (String × Json))
  | fields, [] => .ok fields
  | fields, a :: rest =>
    match reconcileStep fields a with
    | .error e => .error e
    | .ok fields2 => reconcileFields fields2 rest

/-- The default table `{"admin_ids": ADMIN_IDS, "topics": [],
"time_slots": []}` returned by `load_data` on missing, empty or
undecodable content (lines 53 and 65). -/
def defaultData (adminIds : List Int) : Json :=
  .obj [("admin_ids", .arr (adminIds.map Json.num)),
        ("topics", .arr []),
        ("time_slots", .arr [])]

/-- `load_data` (lines 50-65) with the configured allow-list `adminIds`
(the module constant `ADMIN_IDS`): a missing or empty file and JSON that
fails to decode all yield the default table; decoded content enters the
reconciliation loop, whose first `data.get` attribute access raises
`AttributeError` when the decoded value is not a dict (if the allow-list
were empty the loop body would never run and the non-dict value would be
returned as is). -/
def load_data (fs : FileState) (adminIds : List Int) : Except PyErr Json :=
  match fs with
  | .missing => .ok (defaultData adminIds)
  | .empty => .ok (defaultData adminIds)
  | .malformed => .ok (defaultData adminIds)
  | .parsed (.obj fields) =>
    match reconcileFields fields adminIds with
    | .error e => .error e
    | .ok fields2 => .ok (.obj fields2)
  | .parsed j =>
    match adminIds with
    | [] => .ok j
    | _ :: _ => .error .attributeError

/-- `save_data` (lines 68-70): `json.dump` writes the value, and
`json.load` on the written file recovers an equal value (`json.dump` and
`json.load` round-trip exactly on the integer/string/list/dict values the
bot stores), so the resulting file state is `parsed` of the saved
value. -/
def save_data (j : Json) : FileState :=
  .parsed j

/-- The admin-id list produced by the reconciliation loop when the stored
`admin_ids` value is a JSON list `ids`: each configured id absent from
the list (by Python `==`) is appended in order. -/
def unionIds (ids : List Json) (adminIds : List Int) : List Json :=
  adminIds.foldl
    (fun acc a => if acc.any (pyIntEqJson a) then acc else acc ++ [Json.num a]) ids


/-!
## Helper lemmas
-/

theorem countOwned_clearOwnedBy_self (tps : List Topic) (name : String) :
    countOwned (clearOwnedBy tps name) name = 0 := by
  unfold countOwned clearOwnedBy
  rw [List.countP_eq_zero]
  intro a ha
  rw [List.mem_map] at ha
  obtain ⟨x, hx, rfl⟩ := ha
  by_cases h : x.user = some name
  · simp [h]
  · simp [h]

theorem countOwned_clearOwnedBy_ne (tps : List Topic) (name m : String)
    (h : m ≠ name) :
    countOwned (clearOwnedBy tps name) m = countOwned tps m := by
  unfold countOwned clearOwnedBy
  rw [List.countP_map]
  apply List.countP_congr
  intro x hx
  by_cases hxx : x.user = some name
  · simp [Function.comp, hxx]
    exact fun hh => h hh.symm
  · simp [Function.comp, hxx]

theorem clearOwnedBy_map_name (tps : List Topic) (name : String) :
    (clearOwnedBy tps name).map Topic.name = tps.map Topic.name := by
  unfold clearOwnedBy
  rw [List.map_map]
  apply List.map_congr_left
  intro x hx
  by_cases h : x.user = some name
  · simp [h]
  · simp [h]

theorem setUserFirst_map_name (tps : List Topic) (choice name : String) :
    (setUserFirst tps choice name).map Topic.name = tps.map Topic.name := by
  induction tps with
  | nil => rfl
  | cons tp rest ih =>
    by_cases h : tp.name = choice
    · simp [setUserFirst, h]
    · have hb : (tp.name == choice) = false := by simp [h]
      simp [setUserFirst, hb, ih]

theorem countOwned_setUserFirst_of_none (tps : List Topic) (choice name : String)
    (h0 : countOwned tps name = 0)
    (hany : tps.any (fun tp => tp.name == choice) = true) :
    countOwned (setUserFirst tps choice name) name = 1 := by
  induction tps with
  | nil => simp at hany
  | cons tp rest ih =>
    rw [countOwned, List.countP_cons] at h0
    have htp : (tp.user == some name) = false := by
      cases h' : (tp.user == some name)
      · rfl
      · rw [h'] at h0; simp at h0
    rw [htp] at h0
    simp only [Bool.false_eq_true, if_false, Nat.add_zero] at h0
    by_cases hc : tp.name = choice
    · have hcb : (tp.name == choice) = true := by simp [hc]
      simp only [setUserFirst, hcb, if_true, countOwned, List.countP_cons]
      simp [h0]
    · have hcb : (tp.name == choice) = false := by simp [hc]
      rw [List.any_cons, hcb, Bool.false_or] at hany
      simp only [setUserFirst, hcb, Bool.false_eq_true, if_false, countOwned,
        List.countP_cons, htp]
      have := ih h0 hany
      simp only [countOwned] at this
      simp [this]

theorem countOwned_setUserFirst_le (tps : List Topic) (choice name m : String)
    (h : m ≠ name) :
    countOwned (setUserFirst tps choice name) m ≤ countOwned tps m := by
  induction tps with
  | nil => simp [setUserFirst, countOwned]
  | cons tp rest ih =>
    by_cases hc : tp.name = choice
    · have hcb : (tp.name == choice) = true := by simp [hc]
      have h1 : (some name == some m) = false := by
        simp; exact fun hh => h hh.symm
      simp only [setUserFirst, hcb, if_true, countOwned, List.countP_cons, h1]
      simp only [Bool.false_eq_true, if_false, Nat.add_zero]
      omega
    · have hcb : (tp.name == choice) = false := by simp [hc]
      simp only [setUserFirst, hcb, Bool.false_eq_true, if_false, countOwned,
        List.countP_cons]
      have := ih
      simp only [countOwned] at this
      omega

theorem any_name_of_find? (tps : List Topic) (choice : String) (tp : Topic)
    (h : tps.find? (fun x => x.name == choice) = some tp) :
    tps.any (fun x => x.name == choice) = true := by
  have hm := List.mem_of_find?_eq_some h
  have hp := List.find?_some h
  exact List.any_eq_true.mpr ⟨tp, hm, hp⟩

theorem filter_movedSlots (slots : List TimeSlot) (name : String) (s : Int) :
    (movedSlots slots name s).filter (fun e => e.user == name) = [⟨s, name⟩] := by
  unfold movedSlots
  induction slots with
  | nil => simp [List.filter]
  | cons e rest ih =>
    by_cases h : e.user = name
    · have hb : (e.user != name) = false := by simp [h]
      simp only [List.filter_cons, hb, Bool.false_eq_true, if_false]
      exact ih
    · have hb : (e.user != name) = true := by simp [h]
      have hb2 : (e.user == name) = false := by simp [h]
      simp only [List.filter_cons, hb, if_true, List.cons_append]
      simp only [hb2, Bool.false_eq_true, if_false]
      exact ih

theorem clearFirstMatch_append (p : Topic → Bool) (l₁ l₂ : List Topic) (x : Topic)
    (h1 : ∀ y ∈ l₁, p y = false) (hx : p x = true) :
    clearFirstMatch p (l₁ ++ x :: l₂) = l₁ ++ { x with user := none } :: l₂ := by
  induction l₁ with
  | nil => simp [clearFirstMatch, hx]
  | cons y rest ih =>
    have hy : p y = false := h1 y (by simp)
    rw [List.cons_append, clearFirstMatch, hy]
    simp only [Bool.false_eq_true, if_false, List.cons_append, List.cons.injEq, true_and]
    exact ih (fun z hz => h1 z (by simp [hz]))

theorem find?_append_cons {α : Type} (p : α → Bool) (l₁ l₂ : List α) (x : α)
    (h1 : ∀ y ∈ l₁, p y = false) (hx : p x = true) :
    (l₁ ++ x :: l₂).find? p = some x := by
  induction l₁ with
  | nil => simp [List.find?_cons, hx]
  | cons y rest ih =>
    have hy : p y = false := h1 y (by simp)
    rw [List.cons_append, List.find?_cons, hy]
    exact ih (fun z hz => h1 z (by simp [hz]))

theorem objGet_eq_getD (fields : List (String × Json)) (k : String) (d : Json) :
    objGet fields k d = (objLookup fields k).getD d := by
  unfold objGet objLookup
  cases fields.find? (fun kv => kv.1 == k) <;> simp

theorem objLookup_objSet_self (fields : List (String × Json)) (k : String) (v : Json) :
    objLookup (objSet fields k v) k = some v := by
  induction fields with
  | nil => simp [objSet, objLookup]
  | cons kv rest ih =>
    by_cases h : kv.1 = k
    · simp [objSet, objLookup, h]
    · have hb : (kv.1 == k) = false := by simp [h]
      simp only [objSet, hb, Bool.false_eq_true, if_false]
      simp only [objLookup, List.find?_cons, hb]
      exact ih

theorem objSet_objSet (fields : List (String × Json)) (k : String) (v w : Json) :
    objSet (objSet fields k v) k w = objSet fields k w := by
  induction fields with
  | nil => simp [objSet]
  | cons kv rest ih =>
    by_cases h : kv.1 = k
    · simp [objSet, h]
    · have hb : (kv.1 == k) = false := by simp [h]
      simp [objSet, hb, ih]

theorem objSet_of_lookup (fields : List (String × Json)) (k : String) (v : Json)
    (h : objLookup fields k = some v) :
    objSet fields k v = fields := by
  induction fields with
  | nil => simp [objLookup] at h
  | cons kv rest ih =>
    obtain ⟨k1, v1⟩ := kv
    by_cases hk : k1 = k
    · have hb : (k1 == k) = true := by simp [hk]
      simp only [objLookup, List.find?_cons, hb, Option.map_some] at h
      cases h
      simp [objSet, hb, hk]
    · have hb : (k1 == k) = false := by simp [hk]
      simp only [objLookup, List.find?_cons] at h
      rw [show ((k1, v1).1 == k) = false from hb] at h
      simp only [objSet]
      rw [show ((k1, v1).1 == k) = false from hb]
      simp only [Bool.false_eq_true, if_false, List.cons.injEq, true_and]
      exact ih h

theorem pyIntEqJson_num_self (a : Int) : pyIntEqJson a (Json.num a) = true := by
  simp [pyIntEqJson]

theorem unionIds_cons (ids : List Json) (a : Int) (rest : List Int) :
    unionIds ids (a :: rest)
      = unionIds (if ids.any (pyIntEqJson a) then ids else ids ++ [Json.num a]) rest := by
  rfl

theorem any_unionIds_mono (p : Json → Bool) (ids : List Json) (adminIds : List Int)
    (h : ids.any p = true) :
    (unionIds ids adminIds).any p = true := by
  induction adminIds generalizing ids with
  | nil => exact h
  | cons a rest ih =>
    rw [unionIds_cons]
    by_cases hm : ids.any (pyIntEqJson a) = true
    · rw [if_pos hm]; exact ih ids h
    · rw [if_neg hm]
      exact ih _ (by rw [List.any_append]; simp [h])

theorem any_unionIds_of_mem (ids : List Json) (adminIds : List Int) (a : Int)
    (ha : a ∈ adminIds) :
    (unionIds ids adminIds).any (pyIntEqJson a) = true := by
  induction adminIds generalizing ids with
  | nil => simp at ha
  | cons b rest ih =>
    rw [unionIds_cons]
    rcases List.mem_cons.mp ha with rfl | hmem
    · by_cases hm : ids.any (pyIntEqJson a) = true
      · rw [if_pos hm]; exact any_unionIds_mono _ _ _ hm
      · rw [if_neg hm]
        apply any_unionIds_mono
        rw [List.any_append]
        simp [pyIntEqJson_num_self]
    · by_cases hm : ids.any (pyIntEqJson b) = true
      · rw [if_pos hm]; exact ih ids hmem
      · rw [if_neg hm]; exact ih _ hmem

theorem unionIds_of_all_mem (ids : List Json) (adminIds : List Int)
    (h : ∀ a ∈ adminIds, ids.any (pyIntEqJson a) = true) :
    unionIds ids adminIds = ids := by
  induction adminIds with
  | nil => rfl
  | cons a rest ih =>
    rw [unionIds_cons, if_pos (h a (by simp))]
    exact ih (fun b hb => h b (by simp [hb]))

theorem mem_unionIds_orig (ids : List Json) (adminIds : List Int) (v : Json)
    (h : v ∈ unionIds ids adminIds) :
    v ∈ ids ∨ ∃ a ∈ adminIds, v = Json.num a := by
  induction adminIds generalizing ids with
  | nil => exact Or.inl h
  | cons a rest ih =>
    rw [unionIds_cons] at h
    by_cases hm : ids.any (pyIntEqJson a) = true
    · rw [if_pos hm] at h
      rcases ih ids h with hv | ⟨b, hb, hv⟩
      · exact Or.inl hv
      · exact Or.inr ⟨b, by simp [hb], hv⟩
    · rw [if_neg hm] at h
      rcases ih _ h with hv | ⟨b, hb, hv⟩
      · rcases List.mem_append.mp hv with hv1 | hv2
        · exact Or.inl hv1
        · exact Or.inr ⟨a, by simp, by simpa using hv2⟩
      · exact Or.inr ⟨b, by simp [hb], hv⟩

theorem reconcileFields_arr (adminIds : List Int) :
    ∀ (fields : List (String × Json)) (ids : List Json),
      objLookup fields "admin_ids" = some (Json.arr ids) →
      reconcileFields fields adminIds
        = .ok (objSet fields "admin_ids" (Json.arr (unionIds ids adminIds))) := by
  induction adminIds with
  | nil =>
    intro fields ids h
    simp only [reconcileFields, unionIds]
    rw [List.foldl_nil, objSet_of_lookup fields _ _ h]
  | cons a rest ih =>
    intro fields ids h
    have hget : objGet fields "admin_ids" (Json.arr []) = Json.arr ids := by
      rw [objGet_eq_getD, h]; rfl
    rw [unionIds_cons]
    by_cases hm : ids.any (pyIntEqJson a) = true
    · have hstep : reconcileStep fields a = .ok fields := by
        simp [reconcileStep, hget, pyIntInJson, hm]
      rw [reconcileFields, hstep, if_pos hm]
      exact ih fields ids h
    · have hmf : ids.any (pyIntEqJson a) = false := by
        cases hh : ids.any (pyIntEqJson a)
        · rfl
        · exact absurd hh hm
      have hstep : reconcileStep fields a
          = .ok (objSet fields "admin_ids" (Json.arr (ids ++ [Json.num a]))) := by
        simp [reconcileStep, hget, pyIntInJson, hmf]
      rw [reconcileFields, hstep, if_neg hm]
      have h2 := ih (objSet fields "admin_ids" (Json.arr (ids ++ [Json.num a])))
        (ids ++ [Json.num a]) (objLookup_objSet_self _ _ _)
      change reconcileFields (objSet fields "admin_ids" (Json.arr (ids ++ [Json.num a]))) rest = _
      rw [h2, objSet_objSet]

theorem any_name_clearOwnedBy (tps : List Topic) (name choice : String) :
    (clearOwnedBy tps name).any (fun tp => tp.name == choice)
      = tps.any (fun tp => tp.name == choice) := by
  induction tps with
  | nil => rfl
  | cons tp rest ih =>
    by_cases h : tp.user = some name
    · simp only [clearOwnedBy, List.map_cons, List.any_cons] at ih ⊢
      rw [show (tp.user == some name) = true by simp [h]]
      simp only [if_true]
      rw [ih]
    · simp only [clearOwnedBy, List.map_cons, List.any_cons] at ih ⊢
      rw [show (tp.user == some name) = false by simp [h]]
      simp only [Bool.false_eq_true, if_false]
      rw [ih]

theorem claimTopic_claimed_topics (t : Table) (name choice : String) (t2 : Table)
    (nm : String) (tid : Int)
    (h : claimTopic t name choice = (t2, .claimed nm tid)) :
    t2.topics = setUserFirst (clearOwnedBy t.topics name) choice name
    ∧ t2.admin_ids = t.admin_ids
    ∧ t2.time_slots = t.time_slots
    ∧ ∃ chosen, t.topics.find? (fun tp => tp.name == choice) = some chosen
        ∧ truthyUser chosen.user = false := by
  unfold claimTopic at h
  split at h
  · simp at h
  · split at h
    · simp at h
    · rename_i chosen hf
      split at h
      · simp at h
      · rename_i ht
        rw [Prod.mk.injEq] at h
        obtain ⟨h1, h2⟩ := h
        exact ⟨by rw [← h1], by rw [← h1], by rw [← h1], chosen, hf, by simpa using ht⟩

theorem claimSlot_claimed_eq (t : Table) (name : String) (s : Int) (t2 : Table)
    (h : claimSlot t name s = (t2, .claimed)) :
    t2 = { t with time_slots := movedSlots t.time_slots name s } := by
  unfold claimSlot at h
  split at h
  · simp at h
  · split at h
    · split at h
      · simp at h
      · rw [Prod.mk.injEq] at h
        exact h.1.symm
    · rw [Prod.mk.injEq] at h
      exact h.1.symm

/-!
## Claim theorems
-/

/-- Claim C10 (confirmed): `replaceTopicCatalog` modifies only the
`topics` and `time_slots` fields — for every input table and every list
of new names the `admin_ids` field of the result is identical to the
input's `admin_ids`. -/
theorem replaceTopicCatalog_preserves_admin_ids (t : Table) (names : List String) :
    (replaceTopicCatalog t names).admin_ids = t.admin_ids := rfl

/-- Claim C3 (confirmed): for every prior table state and every list of
new topic names, `replaceTopicCatalog` yields a table whose topics are
exactly the fresh entries with 1-based ids, the given names in order, and
no owner, and whose time-slot sequence is unconditionally empty. -/
theorem replaceTopicCatalog_fresh_entries (t : Table) (names : List String) :
    (replaceTopicCatalog t names).time_slots = []
    ∧ (replaceTopicCatalog t names).topics.length = names.length
    ∧ ∀ i (h : i < names.length),
        (replaceTopicCatalog t names).topics[i]?
          = some ⟨(i : Int) + 1, names[i], none⟩ := by
  refine ⟨rfl, by simp [replaceTopicCatalog], ?_⟩
  intro i h
  simp [replaceTopicCatalog, List.getElem?_enum, List.getElem?_eq_getElem h]

/-- Witness for C3 at a concrete catalog. -/
theorem replaceTopicCatalog_fresh_entries_witness :
    (replaceTopicCatalog ⟨[5], [⟨1, "O", some "U"⟩], [⟨2, "U"⟩]⟩ ["X", "Y"]).topics[1]?
      = some ⟨2, "Y", none⟩ :=
  (replaceTopicCatalog_fresh_entries ⟨[5], [⟨1, "O", some "U"⟩], [⟨2, "U"⟩]⟩
    ["X", "Y"]).2.2 1 (by decide)

/-- Claim C2 (confirmed): a successful `claimSlot t name s` yields a
table whose time-slot entries owned by `name` are exactly the single
entry `{slot := s, user := name}` — any slot previously held by that
owner is released in the same table write (move semantics). -/
theorem claimSlot_move_semantics (t : Table) (name : String) (s : Int) (t2 : Table)
    (h : claimSlot t name s = (t2, .claimed)) :
    t2.time_slots.filter (fun e => e.user == name) = [⟨s, name⟩] := by
  rw [claimSlot_claimed_eq t name s t2 h]
  exact filter_movedSlots t.time_slots name s

/-- Witness for C2: Ann moves from slot 3 to slot 5. -/
theorem claimSlot_move_semantics_witness :
    (Table.mk [] [] [⟨5, "Ann"⟩]).time_slots.filter (fun e => e.user == "Ann")
      = [⟨5, "Ann"⟩] :=
  claimSlot_move_semantics ⟨[], [], [⟨3, "Ann"⟩]⟩ "Ann" 5 ⟨[], [], [⟨5, "Ann"⟩]⟩
    (by decide)

/-- Claim C4, counterexample: the claim quantifies over every table
containing an entry `{slot := s, user := u}` with `u` different from the
claimant, but when the table contains two entries for the same slot the
handler consults only the first one (`next(...)`), so here Bob's claim of
slot 5 succeeds and mutates the table although the entry
`{slot := 5, user := "Ann"}` with `"Ann" ≠ "Bob"` is present. -/
theorem claimSlot_conflict_counterexample :
    (TimeSlot.mk 5 "Ann" ∈ (Table.mk [] [] [⟨5, "Bob"⟩, ⟨5, "Ann"⟩]).time_slots
      ∧ "Ann" ≠ "Bob")
    ∧ claimSlot ⟨[], [], [⟨5, "Bob"⟩, ⟨5, "Ann"⟩]⟩ "Bob" 5
        = (⟨[], [], [⟨5, "Ann"⟩, ⟨5, "Bob"⟩]⟩, .claimed) :=
  ⟨⟨by decide, by decide⟩, by decide⟩

/-- Claim C4 (amended): for every table whose *first* time-slot entry for
slot `s` (with `s` in 1..7) is owned by `u` different from the claimant's
name, `claimSlot` returns a `Conflict` outcome carrying `u` and leaves
the table unchanged (no mutation is persisted). -/
theorem claimSlot_conflict_first_entry (t : Table) (name : String) (s : Int)
    (e : TimeSlot)
    (h1 : t.time_slots.find? (fun x => x.slot == s) = some e)
    (h2 : e.user ≠ name) (h3 : 1 ≤ s) (h4 : s ≤ 7) :
    claimSlot t name s = (t, .conflict e.user) := by
  have hr : ¬(s < 1 ∨ 7 < s) := by omega
  have hb : (e.user != name) = true := by simp [h2]
  unfold claimSlot
  rw [if_neg hr, h1]
  show (if (e.user != name) = true then (t, SlotOutcome.conflict e.user)
        else ({ t with time_slots := movedSlots t.time_slots name s },
          SlotOutcome.claimed))
      = (t, SlotOutcome.conflict e.user)
  exact if_pos hb

/-- Witness for the amended C4: Bob hits Ann's slot 5 and nothing moves. -/
theorem claimSlot_conflict_first_entry_witness :
    claimSlot ⟨[], [], [⟨5, "Ann"⟩]⟩ "Bob" 5
      = (⟨[], [], [⟨5, "Ann"⟩]⟩, .conflict "Ann") :=
  claimSlot_conflict_first_entry ⟨[], [], [⟨5, "Ann"⟩]⟩ "Bob" 5 ⟨5, "Ann"⟩
    (by decide) (by decide) (by decide) (by decide)

/-- Claim C9, counterexample: the catalog replacement does not enforce
name uniqueness — replacing the catalog with the duplicate list
`["A", "A"]` yields two topics with the same name. -/
theorem replaceTopicCatalog_duplicate_names_counterexample :
    ¬ ((replaceTopicCatalog ⟨[], [], []⟩ ["A", "A"]).topics.map Topic.name).Nodup := by
  decide

/-- Claim C9 (amended): `replaceTopicCatalog` copies the given names
verbatim, so duplicates in the input produce duplicate topic names
(uniqueness is not enforced); the generated ids are pairwise distinct;
and `claimTopic` never alters topic names, so claims preserve topic-name
uniqueness whenever it already holds. -/
theorem catalog_names_verbatim_ids_nodup (t : Table) (names : List String)
    (nm ch : String) (t2 : Table) (topicNm : String) (tid : Int) :
    ((replaceTopicCatalog t names).topics.map Topic.name = names)
    ∧ ((replaceTopicCatalog t names).topics.map Topic.id).Nodup
    ∧ (claimTopic t nm ch = (t2, .claimed topicNm tid) →
        t2.topics.map Topic.name = t.topics.map Topic.name) := by
  refine ⟨?_, ?_, ?_⟩
  · show (names.enum.map (fun p => Topic.mk ((p.1 : Int) + 1) p.2 none)).map Topic.name
        = names
    rw [List.map_map]
    have : (Topic.name ∘ fun p : Nat × String => Topic.mk ((p.1 : Int) + 1) p.2 none)
        = Prod.snd := rfl
    rw [this, List.enum_map_snd]
  · show ((names.enum.map (fun p => Topic.mk ((p.1 : Int) + 1) p.2 none)).map
        Topic.id).Nodup
    rw [List.map_map]
    have : (Topic.id ∘ fun p : Nat × String => Topic.mk ((p.1 : Int) + 1) p.2 none)
        = (fun n : Nat => (n : Int) + 1) ∘ Prod.fst := rfl
    rw [this, ← List.map_map, List.enum_map_fst]
    refine List.Nodup.map ?_ (List.nodup_range _)
    intro a b hab
    have hab2 : (a : Int) + 1 = (b : Int) + 1 := hab
    omega
  · intro h
    obtain ⟨htop, _, _, _⟩ := claimTopic_claimed_topics t nm ch t2 topicNm tid h
    rw [htop, setUserFirst_map_name, clearOwnedBy_map_name]

/-- Witness for the amended C9 at a concrete claim. -/
theorem catalog_names_verbatim_ids_nodup_witness :
    (Table.mk [] [⟨1, "A", some "Ann"⟩] []).topics.map Topic.name
      = (Table.mk [] [⟨1, "A", none⟩] []).topics.map Topic.name :=
  (catalog_names_verbatim_ids_nodup ⟨[], [⟨1, "A", none⟩], []⟩ [] "Ann" "A"
    ⟨[], [⟨1, "A", some "Ann"⟩], []⟩ "A" 1).2.2 (by decide)

/-- Claim C1, counterexample: the claim asserts that after a successful
`claimTopic` ownership is injective for *every* display name even when
the input already contains duplicates, but the defensive cleanup only
clears topics owned by the *claimant*: here Ann's successful claim of
topic C leaves Bob owning two topics, so the resulting owner list is not
duplicate-free. -/
theorem claimTopic_injectivity_counterexample :
    (claimTopic ⟨[], [⟨1, "A", some "Bob"⟩, ⟨2, "B", some "Bob"⟩, ⟨3, "C", none⟩], []⟩
        "Ann" "C").2 = .claimed "C" 3
    ∧ ¬ (((claimTopic ⟨[], [⟨1, "A", some "Bob"⟩, ⟨2, "B", some "Bob"⟩, ⟨3, "C", none⟩],
        []⟩ "Ann" "C").1.topics.filterMap Topic.user).Nodup) :=
  ⟨by decide, by decide⟩

/-- Claim C1 (amended): after every successful
`claimTopic t name choice`, the claimant owns exactly one topic; for
every other display name the number of topics it owns does not grow, so
ownership injectivity is *preserved* (if no name owned two topics before,
none does afterwards) — but duplicate ownership already present for a
name other than the claimant is not repaired. -/
theorem claimTopic_owner_counts (t : Table) (name choice : String) (t2 : Table)
    (nm : String) (tid : Int)
    (h : claimTopic t name choice = (t2, .claimed nm tid)) :
    countOwned t2.topics name = 1
    ∧ (∀ m, m ≠ name → countOwned t2.topics m ≤ countOwned t.topics m)
    ∧ ((∀ m, countOwned t.topics m ≤ 1) → ∀ m, countOwned t2.topics m ≤ 1) := by
  obtain ⟨htop, _, _, chosen, hf, _⟩ := claimTopic_claimed_topics t name choice t2 nm tid h
  have hany : (clearOwnedBy t.topics name).any (fun tp => tp.name == choice) = true := by
    rw [any_name_clearOwnedBy]
    exact any_name_of_find? t.topics choice chosen hf
  have h0 : countOwned (clearOwnedBy t.topics name) name = 0 :=
    countOwned_clearOwnedBy_self t.topics name
  have hone : countOwned t2.topics name = 1 := by
    rw [htop]
    exact countOwned_setUserFirst_of_none _ _ _ h0 hany
  have hle : ∀ m, m ≠ name → countOwned t2.topics m ≤ countOwned t.topics m := by
    intro m hm
    rw [htop]
    calc countOwned (setUserFirst (clearOwnedBy t.topics name) choice name) m
        ≤ countOwned (clearOwnedBy t.topics name) m :=
          countOwned_setUserFirst_le _ _ _ _ hm
      _ = countOwned t.topics m := countOwned_clearOwnedBy_ne _ _ _ hm
  refine ⟨hone, hle, ?_⟩
  intro hinj m
  by_cases hm : m = name
  · rw [hm, hone]
  · exact le_trans (hle m hm) (hinj m)

/-- Witness for the amended C1 at a concrete claim. -/
theorem claimTopic_owner_counts_witness :
    countOwned (Table.mk [] [⟨1, "A", some "Ann"⟩, ⟨2, "B", none⟩] []).topics "Ann"
      = 1 :=
  (claimTopic_owner_counts ⟨[], [⟨1, "A", none⟩, ⟨2, "B", none⟩], []⟩ "Ann" "A"
    ⟨[], [⟨1, "A", some "Ann"⟩, ⟨2, "B", none⟩], []⟩ "A" 1 (by decide)).1

/-- Claim C7 (confirmed): in state `choosing_time`, a back event clears
the owner of exactly the topic claimed earlier in the same flow —
identified by the remembered topic id and the claimant's name, with no
other topic matching — persists that table, returns the user's
conversation state to Idle (`none`, i.e. `pending.pop`), and leaves
`time_slots` (and `admin_ids`) unchanged. -/
theorem choose_time_back_rollback (t : Table) (name topicName : String) (tid : Int)
    (l₁ l₂ : List Topic) (x : Topic)
    (hsplit : t.topics = l₁ ++ x :: l₂)
    (hx : x.user = some name ∧ x.id = tid)
    (hothers : ∀ y ∈ l₁ ++ l₂, ¬(y.user = some name ∧ y.id = tid)) :
    choose_time t name topicName tid backLabel
      = ({ t with topics := l₁ ++ { x with user := none } :: l₂ }, none, .backMenu) := by
  have hstrip : pyStrip backLabel = backLabel := by decide
  have hxb : (x.user == some name && x.id == tid) = true := by
    simp [hx.1, hx.2]
  have h1 : ∀ y ∈ l₁, (y.user == some name && y.id == tid) = false := by
    intro y hy
    have hne := hothers y (List.mem_append_left _ hy)
    by_cases hu : y.user = some name
    · by_cases hi : y.id = tid
      · exact absurd ⟨hu, hi⟩ hne
      · simp [hi]
    · simp [hu]
  simp only [choose_time, hstrip, beq_self_eq_true, if_true]
  rw [hsplit, clearFirstMatch_append _ l₁ l₂ x h1 hxb]

/-- Witness for C7: the back event rolls back Ann's topic claim, keeps
the unrelated slot entry, and returns the conversation to Idle. -/
theorem choose_time_back_rollback_witness :
    choose_time ⟨[], [⟨1, "A", some "Ann"⟩], [⟨2, "X"⟩]⟩ "Ann" "A" 1 backLabel
      = (⟨[], [⟨1, "A", none⟩], [⟨2, "X"⟩]⟩, none, .backMenu) :=
  choose_time_back_rollback ⟨[], [⟨1, "A", some "Ann"⟩], [⟨2, "X"⟩]⟩ "Ann" "A" 1
    [] [] ⟨1, "A", some "Ann"⟩ rfl (by decide) (by simp)

/-- Claim C5, counterexample: the claim asserts `releaseTopic` clears the
owner on *every* topic currently owned by the released identity (not just
the first match), yet the caller-identity flow `reset_topic` only clears
the first matching topic: here both topics are owned by `"Ann"` (the
caller's display name), and after the release the second one is still
owned. -/
theorem reset_topic_first_match_counterexample :
    reset_topic ⟨[], [⟨1, "T1", some "Ann"⟩, ⟨2, "T2", some "Ann"⟩], []⟩ 7 "Ann"
      = (⟨[], [⟨1, "T1", none⟩, ⟨2, "T2", some "Ann"⟩], []⟩, true)
    ∧ Topic.mk 2 "T2" (some "Ann")
        ∈ (reset_topic ⟨[], [⟨1, "T1", some "Ann"⟩, ⟨2, "T2", some "Ann"⟩], []⟩
            7 "Ann").1.topics :=
  ⟨by decide, by decide⟩

/-- Claim C5 (amended): the two release flows behave differently.  The
name-entry flow (`got_name_reset`) clears the owner of *every* topic
whose owner equals the typed name exactly and removes every time-slot
entry owned exactly by that name, and reports not-found with the table
unchanged when no topic matches (even if slot entries would match).  The
caller-identity flow (`reset_topic`) clears only the *first* topic whose
truthy owner contains the caller's stringified channel id or display
name as a substring, and removes every time-slot entry matching the
three-way rule (exact display-name equality, substring containment of
the display name, or stringified-id equality). -/
theorem release_flows_exact_behavior (t : Table) (name fullName : String) (cid : Int) :
    (t.topics.filter (fun tp => tp.user == some name) = [] →
        got_name_reset t name = (t, false))
    ∧ (∀ t2, got_name_reset t name = (t2, true) →
        countOwned t2.topics name = 0
        ∧ t2.topics.map Topic.name = t.topics.map Topic.name
        ∧ t2.time_slots = t.time_slots.filter (fun e => e.user != name)
        ∧ t2.admin_ids = t.admin_ids)
    ∧ (∀ l₁ l₂ x, t.topics = l₁ ++ x :: l₂ →
        callerTopicMatch cid fullName x = true →
        (∀ y ∈ l₁, callerTopicMatch cid fullName y = false) →
        reset_topic t cid fullName
          = ({ t with
                topics := l₁ ++ { x with user := none } :: l₂,
                time_slots := t.time_slots.filter
                  (fun e => !(slotCallerMatch cid fullName e)) }, true)) := by
  refine ⟨?_, ?_, ?_⟩
  · intro h
    simp [got_name_reset, h]
  · intro t2 h
    unfold got_name_reset at h
    simp only [] at h
    split at h
    · simp at h
    · rw [Prod.mk.injEq] at h
      obtain ⟨h1, _⟩ := h
      refine ⟨?_, ?_, ?_, ?_⟩ <;> rw [← h1]
      · exact countOwned_clearOwnedBy_self t.topics name
      · exact clearOwnedBy_map_name t.topics name
  · intro l₁ l₂ x hsplit hx hothers
    unfold reset_topic
    rw [hsplit, find?_append_cons _ l₁ l₂ x hothers hx,
      clearFirstMatch_append _ l₁ l₂ x hothers hx]

/-- Witness for the amended C5: the caller-identity flow clears the single
matching topic and filters the slots with the three-way rule. -/
theorem release_flows_exact_behavior_witness :
    reset_topic ⟨[], [⟨1, "T", some "Ann"⟩], [⟨3, "Ann"⟩, ⟨4, "Bob"⟩]⟩ 7 "Ann"
      = (⟨[], [⟨1, "T", none⟩], [⟨4, "Bob"⟩]⟩, true) :=
  (release_flows_exact_behavior ⟨[], [⟨1, "T", some "Ann"⟩], [⟨3, "Ann"⟩, ⟨4, "Bob"⟩]⟩
    "Ann" "Ann" 7).2.2 [] [] ⟨1, "T", some "Ann"⟩ rfl (by decide) (by simp)

/-- Claim C6, counterexample: the claim says `load` never raises and
substitutes the default empty table for every malformed persisted
content, but a file holding valid JSON that is not an object — here the
list `[3]` — makes the loader's first `data.get` attribute access raise
`AttributeError`, which propagates instead of yielding the default. -/
theorem load_data_raises_counterexample :
    load_data (.parsed (.arr [Json.num 3])) [1] = .error .attributeError
    ∧ load_data (.parsed (.arr [Json.num 3])) [1] ≠ .ok (defaultData [1]) :=
  ⟨rfl, fun h => Except.noConfusion
    (show Except.error PyErr.attributeError = Except.ok (defaultData [1]) from h)⟩

/-- Claim C6 (amended): `load` returns the default empty table — admin
ids from the configured allow-list, no topics, no time slots — on a
missing file, an empty file, or content that fails JSON decoding; but
content that decodes to a non-object JSON value makes it raise
`AttributeError` (with a nonempty configured allow-list), so the
"never raises" guarantee holds only for the non-decodable kind of
malformation. -/
theorem load_data_default_cases (adminIds : List Int) (a0 : Int) (rest : List Int) :
    load_data .missing adminIds = .ok (defaultData adminIds)
    ∧ load_data .empty adminIds = .ok (defaultData adminIds)
    ∧ load_data .malformed adminIds = .ok (defaultData adminIds)
    ∧ (∀ xs, load_data (.parsed (.arr xs)) (a0 :: rest) = .error .attributeError)
    ∧ (∀ s, load_data (.parsed (.str s)) (a0 :: rest) = .error .attributeError)
    ∧ (∀ n, load_data (.parsed (.num n)) (a0 :: rest) = .error .attributeError)
    ∧ (∀ b, load_data (.parsed (.bool b)) (a0 :: rest) = .error .attributeError)
    ∧ load_data (.parsed .null) (a0 :: rest) = .error .attributeError :=
  ⟨rfl, rfl, rfl, fun _ => rfl, fun _ => rfl, fun _ => rfl, fun _ => rfl, rfl⟩

/-- Claim C8 (confirmed): for every persisted table (a JSON object whose
`admin_ids` field holds a list), loading, saving the result unmodified,
and loading again yields the same value as the first load, and that value
differs from the persisted one only in `admin_ids`, which becomes the
union of the stored ids with the configured allow-list: every configured
id is present afterwards, and nothing else is added. -/
theorem load_save_load_roundtrip (adminIds : List Int)
    (fields : List (String × Json)) (ids : List Json)
    (h : objLookup fields "admin_ids" = some (Json.arr ids)) :
    load_data (.parsed (.obj fields)) adminIds
        = .ok (.obj (objSet fields "admin_ids" (Json.arr (unionIds ids adminIds))))
    ∧ load_data (save_data (.obj (objSet fields "admin_ids"
          (Json.arr (unionIds ids adminIds))))) adminIds
        = .ok (.obj (objSet fields "admin_ids" (Json.arr (unionIds ids adminIds))))
    ∧ (∀ a ∈ adminIds, (unionIds ids adminIds).any (pyIntEqJson a) = true)
    ∧ (∀ v ∈ unionIds ids adminIds, v ∈ ids ∨ ∃ a ∈ adminIds, v = Json.num a) := by
  have h1 := reconcileFields_arr adminIds fields ids h
  have hmem : ∀ a ∈ adminIds, (unionIds ids adminIds).any (pyIntEqJson a) = true :=
    fun a ha => any_unionIds_of_mem ids adminIds a ha
  have h2 := reconcileFields_arr adminIds
    (objSet fields "admin_ids" (Json.arr (unionIds ids adminIds)))
    (unionIds ids adminIds) (objLookup_objSet_self _ _ _)
  rw [unionIds_of_all_mem _ _ hmem, objSet_objSet] at h2
  refine ⟨?_, ?_, hmem, fun v hv => mem_unionIds_orig _ _ _ hv⟩
  · show (match reconcileFields fields adminIds with
      | .error e => Except.error e
      | .ok fields2 => Except.ok (Json.obj fields2)) = _
    rw [h1]
  · show (match reconcileFields (objSet fields "admin_ids"
        (Json.arr (unionIds ids adminIds))) adminIds with
      | .error e => Except.error e
      | .ok fields2 => Except.ok (Json.obj fields2)) = _
    rw [h2]

/-- Witness for C8: loading a stored table with `admin_ids = [2]` under
allow-list `[1]` appends id 1; loading the saved result is stable. -/
theorem load_save_load_roundtrip_witness :
    load_data (.parsed (.obj [("admin_ids", Json.arr [Json.num 2]),
        ("topics", Json.arr [])])) [1]
      = .ok (.obj [("admin_ids", Json.arr [Json.num 2, Json.num 1]),
        ("topics", Json.arr [])]) :=
  (load_save_load_roundtrip [1]
    [("admin_ids", Json.arr [Json.num 2]), ("topics", Json.arr [])]
    [Json.num 2] rfl).1
